import Mathlib

/-!
# Verification of the dompx templating engine

Shallow embedding of `src/dompx.py`: a docx templating engine that scans a
document's paragraphs for tokens of the form `@expr` / `@{expr}` optionally
suffixed with `!modifier`, evaluates the expression against a caller-supplied
data mapping and mutates the document (text substitution, image embedding,
matrix-to-table expansion).

The embedding models Python values by the inductive `Value`, the module-level
dispatch `globals().get(mod[1:], replace)` by `dispatchHandler` over the
module's global namespace, the regular expression
`(@{?[\w\.\[\]\x27\x22\(\)]+}?)(![a-z]+)?` by an explicit scanner `findAllS`,
and `str.replace` by `pyReplace`.  Document mutations (image/table insertion)
are recorded as explicit effect lists; exceptions raised by the Python code
are modelled with `Except String`.
-/

set_option autoImplicit false

namespace Dompx

/-- Model of the Python values that flow through the engine: `None`, `int`,
`str`, `list`, `tuple`, and built-in function objects (which become reachable
because `eval` with an empty globals dict has the builtins injected). -/
inductive Value : Type where
  | noneV : Value
  | int : Int → Value
  | str : String → Value
  | list : List Value → Value
  | tuple : List Value → Value
  | builtin : String → Value

/-- Python truthiness of a `Value` (`bool(v)`). -/
def pyTruthy : Value → Bool
  | .noneV => false
  | .int n => n ≠ 0
  | .str s => s ≠ ""
  | .list l => !l.isEmpty
  | .tuple l => !l.isEmpty
  | .builtin _ => true

mutual

/-- Python `repr` of a value, as used inside container displays
(strings are quoted there). -/
def pyRepr : Value → String
  | .noneV => "None"
  | .int n => toString n
  | .str s => "\x27" ++ s ++ "\x27"
  | .list l => "[" ++ pyReprList l ++ "]"
  | .tuple l => "(" ++ pyReprList l ++ ")"
  | .builtin n => "<built-in function " ++ n ++ ">"

/-- Comma-separated `repr`s of the elements of a container. -/
def pyReprList : List Value → String
  | [] => ""
  | [v] => pyRepr v
  | v :: vs => pyRepr v ++ ", " ++ pyReprList vs

end

/-- Python `str(v)`: like `repr` except that a top-level string is itself. -/
def pyStr : Value → String
  | .str s => s
  | v => pyRepr v

/-- Names of the Python builtins visible to `eval` (a representative finite
model of the builtins namespace; it contains every builtin the proofs
mention). -/
def builtinNames : List String :=
  ["abs", "all", "any", "bool", "dict", "eval", "exec", "filter", "float",
   "id", "int", "len", "list", "map", "max", "min", "open", "print", "range",
   "repr", "sorted", "str", "sum", "tuple", "type"]

/-- Name resolution performed by `eval(body, {}, data)` for a plain
identifier `body`: the locals (the data mapping) are consulted first; the
globals dict is empty, but Python injects `__builtins__` into it, so the
builtins namespace is consulted next.  `none` models the `NameError` raised
when the identifier is found in neither. -/
def evalName (name : String) (data : List (String × Value)) : Option Value :=
  match data.lookup name with
  | some v => some v
  | none => if name ∈ builtinNames then some (.builtin name) else none

/-- Python slicing `s[1:]` at the character-list level. -/
def strDrop1 : List Char → List Char
  | [] => []
  | _ :: t => t

/-- Python `s.strip('{}')`: remove any leading and trailing `{`/`}`
characters. -/
def stripBraces (l : List Char) : List Char :=
  let isBrace : Char → Bool := fun c => c = '\x7b' || c = '\x7d'
  ((l.dropWhile isBrace).reverse.dropWhile isBrace).reverse

/-- The expression body extracted by `compile_expr`:
`expr[1:].strip('{}')`. -/
def exprBody (expr : String) : String :=
  String.mk (stripBraces (strDrop1 expr.data))

/-- Embedding of `compile_expr` (src/dompx.py lines 181-200) restricted to
the identifier fragment of the expression grammar: evaluate the body as a
name against the data mapping (with builtins visible, see `evalName`); on
`NameError` return the raw `expr` string — the "leave unresolved"
sentinel. -/
def compile_expr (expr : String) (data : List (String × Value)) : Value :=
  match evalName (exprBody expr) data with
  | some v => v
  | none => .str expr

/-! ## Token grammar

The compiled pattern (src/dompx.py line 219) is
`(@{?[\w\.\[\]\x27\x22\(\)]+}?)(![a-z]+)?`.  Since `{`, `}`, `!` and `@` are
all outside the bracketed character class, the regex is deterministic and is
implemented below as a direct scanner.  `\w` is modelled at ASCII level. -/

/-- Characters matched by `\w` (ASCII model). -/
def isWordChar (c : Char) : Bool :=
  c.isAlpha || c.isDigit || c = '_'

/-- Characters of the bracketed class `[\w\.\[\]\x27\x22\(\)]`. -/
def isExprChar (c : Char) : Bool :=
  isWordChar c || c = '.' || c = '[' || c = ']' || c = '\x27' ||
    c = '\x22' || c = '(' || c = ')'

/-- Characters of `[a-z]`. -/
def isLowerAZ (c : Char) : Bool :=
  'a' ≤ c && c ≤ 'z'

/-- Attempt to match the token regex at the very start of `cs`.  On success
returns the text of group 1 (the expression), group 2 (the modifier, `""`
when absent) and the total number of characters consumed. -/
def matchAt (cs : List Char) : Option (String × String × Nat) :=
  match cs with
  | '@' :: rest =>
    let brace : List Char := match rest with
      | '\x7b' :: _ => ['\x7b']
      | _ => []
    let r1 := rest.drop brace.length
    let body := r1.takeWhile isExprChar
    if body.isEmpty then none
    else
      let r2 := r1.drop body.length
      let brace2 : List Char := match r2 with
        | '\x7d' :: _ => ['\x7d']
        | _ => []
      let r3 := r2.drop brace2.length
      let g1 : List Char := '@' :: brace ++ body ++ brace2
      match r3 with
      | '!' :: r4 =>
        let low := r4.takeWhile isLowerAZ
        if low.isEmpty then some (String.mk g1, "", g1.length)
        else some (String.mk g1, String.mk ('!' :: low), g1.length + 1 + low.length)
      | _ => some (String.mk g1, "", g1.length)
  | _ => none

/-- Fueled scanning loop of `re.findall`: at each position try to match; on a
match record `(group1, group2)` and resume after the matched text, otherwise
advance one character.  The fuel is the length of the remaining text, so the
fuel never runs out when initialised with the input length. -/
def findAllGo : Nat → List Char → List (String × String)
  | 0, _ => []
  | _ + 1, [] => []
  | fuel + 1, c :: cs =>
    match matchAt (c :: cs) with
    | some (e, m, n) => (e, m) :: findAllGo fuel ((c :: cs).drop (max n 1))
    | none => findAllGo fuel cs

/-- Embedding of `token.findall(s)` for the dompx token pattern. -/
def findAllS (s : String) : List (String × String) :=
  findAllGo s.data.length s.data

/-- Fueled loop of Python `str.replace`: scan left to right, replacing every
non-overlapping occurrence of `pat`; the replacement text is not rescanned. -/
def replaceAllGo : Nat → List Char → List Char → List Char → List Char
  | 0, s, _, _ => s
  | _ + 1, [], _, _ => []
  | fuel + 1, c :: cs, pat, rep =>
    if pat ≠ [] ∧ pat.isPrefixOf (c :: cs) then
      rep ++ replaceAllGo fuel ((c :: cs).drop pat.length) pat rep
    else
      c :: replaceAllGo fuel cs pat rep

/-- Embedding of Python `s.replace(pat, rep)` (for the nonempty patterns the
engine uses; an empty pattern leaves the string unchanged in this model). -/
def pyReplace (s pat rep : String) : String :=
  String.mk (replaceAllGo s.data.length s.data pat.data rep.data)

/-- Fueled count of the non-overlapping occurrences of `pat`, scanning
exactly like `replaceAllGo`. -/
def countOccGo : Nat → List Char → List Char → Nat
  | 0, _, _ => 0
  | _ + 1, [], _ => 0
  | fuel + 1, c :: cs, pat =>
    if pat ≠ [] ∧ pat.isPrefixOf (c :: cs) then
      1 + countOccGo fuel ((c :: cs).drop pat.length) pat
    else
      countOccGo fuel cs pat

/-- Number of non-overlapping occurrences of `pat` in `s` (the occurrences
`str.replace` rewrites). -/
def countOccS (s pat : String) : Nat :=
  countOccGo s.data.length s.data pat.data

/-- The string `s` repeated `n` times. -/
def repeatS (s : String) : Nat → String
  | 0 => ""
  | n + 1 => s ++ repeatS s n

/-! ## Modifier dispatch

`domp` resolves a handler with `globals().get(mod[1:], replace)`
(src/dompx.py line 95).  The lookup is over the whole module namespace, so
besides the three handlers it can hit any other module-level binding. -/

/-- The names bound at module level in `dompx.py` at call time: the imports
(`io`, `re`, `Pattern`, `Iterable`, `partial`, `Document`, `Mm`, `Run`,
`Paragraph`), the module's own functions, and the dunder names every module
namespace carries. -/
def moduleGlobalNames : List String :=
  ["io", "re", "Pattern", "Iterable", "partial", "Document", "Mm", "Run",
   "Paragraph", "paragraphs", "table_paragraphs", "domp", "replace", "img",
   "tbl", "compile_expr", "compile",
   "__name__", "__doc__", "__package__", "__loader__", "__spec__",
   "__file__", "__builtins__", "__annotations__", "__cached__"]

/-- The object `globals().get(mod[1:], replace)` resolves to: one of the
three token handlers, or (`other name`) some module-level binding that is
not a token handler. -/
inductive Handler : Type where
  | replaceH : Handler
  | imgH : Handler
  | tblH : Handler
  | other : String → Handler
deriving DecidableEq

/-- Python `mod[1:]`. -/
def modName (mod : String) : String :=
  String.mk (strDrop1 mod.data)

/-- Embedding of the dispatch `globals().get(mod[1:], replace)`: the names
`replace`, `img`, `tbl` resolve to the handlers; every other name bound in
the module namespace resolves to that (non-handler) object; an unbound name
falls back to the default `replace`. -/
def dispatchHandler (mod : String) : Handler :=
  let name := modName mod
  if name = "replace" then .replaceH
  else if name = "img" then .imgH
  else if name = "tbl" then .tblH
  else if name ∈ moduleGlobalNames then .other name
  else .replaceH

/-! ## Handlers -/

/-- An attempted image insertion: the `(path, width, height)` arguments the
handler passes to `run.add_picture` (the millimetre wrapping of nonzero
dimensions is the external library's concern and is not modelled). -/
def Pic : Type := Value × Value × Value

/-- A table spliced next to the run: dimensions passed to `doc.add_table`,
the style name set on it, and the grid of cell texts. -/
structure TblIns : Type where
  rows : Nat
  cols : Nat
  style : String
  cells : List (List String)

/-- Result of one handler invocation: the run's new text plus the document
effects (attempted image insertions and spliced tables) it produced. -/
structure HandlerOut : Type where
  text : String
  pics : List Pic
  tbls : List TblIns

/-- Python `len(v)` (raises `TypeError` on unsized values). -/
def pyLen : Value → Except String Nat
  | .str s => .ok s.length
  | .list l => .ok l.length
  | .tuple l => .ok l.length
  | _ => .error "TypeError: object has no len()"

/-- Python `v[0]` (raises `TypeError` on non-subscriptable values,
`IndexError` on empty sequences). -/
def pySubscript0 : Value → Except String Value
  | .str s => match s.data with
    | [] => .error "IndexError: string index out of range"
    | c :: _ => .ok (.str (String.mk [c]))
  | .list [] => .error "IndexError: list index out of range"
  | .list (v :: _) => .ok v
  | .tuple [] => .error "IndexError: tuple index out of range"
  | .tuple (v :: _) => .ok v
  | _ => .error "TypeError: object is not subscriptable"

/-- Python iteration over `v` (raises `TypeError` on non-iterables; a string
iterates over its one-character substrings). -/
def pyIter : Value → Except String (List Value)
  | .str s => .ok (s.data.map fun c => .str (String.mk [c]))
  | .list l => .ok l
  | .tuple l => .ok l
  | _ => .error "TypeError: object is not iterable"

/-- Model of `table.cell(r, c).text = s` on a grid of cell texts: `none`
when the indices fall outside the grid (the library raises `IndexError`). -/
def setCell (g : List (List String)) (r c : Nat) (s : String) :
    Option (List (List String)) :=
  match g.get? r with
  | some row => if c < row.length then some (g.set r (row.set c s)) else none
  | none => none

/-- The inner population loop of `tbl`: write the string forms of one row's
entries into row `r` of the grid, starting at column `c`. -/
def fillRow (g : List (List String)) (r c : Nat) :
    List Value → Except String (List (List String))
  | [] => .ok g
  | v :: vs =>
    match setCell g r c (pyStr v) with
    | some g2 => fillRow g2 r (c + 1) vs
    | none => .error "IndexError: cell index out of range"

/-- The outer population loop of `tbl`: write each matrix row into the grid
starting at row `r`. -/
def fillRows (g : List (List String)) (r : Nat) :
    List Value → Except String (List (List String))
  | [] => .ok g
  | row :: rest => do
    let cells ← pyIter row
    let g2 ← fillRow g r 0 cells
    fillRows g2 (r + 1) rest

/-- The table-building tail of `tbl` (src/dompx.py lines 169-178): size the
new table by `len(matrix)` and `len(matrix[0])`, apply the `Table Grid`
style, populate the cells row-major with `str(cell)`, and splice the result
next to the run. -/
def buildTable (v : Value) (t : String) : Except String HandlerOut := do
  let rows ← pyLen v
  let v0 ← pySubscript0 v
  let cols ← pyLen v0
  let grid0 := List.replicate rows (List.replicate cols "")
  let elems ← pyIter v
  let grid ← fillRows grid0 0 elems
  .ok ⟨t, [], [⟨rows, cols, "Table Grid", grid⟩]⟩

/-- Embedding of the `replace` handler (src/dompx.py lines 98-112):
substitute the string form of the compiled value for every occurrence of the
token text `expr+mod` in the run. -/
def replace (s expr mod : String) (data : List (String × Value)) :
    Except String HandlerOut :=
  .ok ⟨pyReplace s (expr ++ mod) (pyStr (compile_expr expr data)), [], []⟩

/-- Embedding of the `img` handler (src/dompx.py lines 115-145): erase the
token text, then — if the compiled value is truthy — treat a string as an
image path, unpack a tuple as `(path, width, height)` (a `ValueError` when
the arity is not 3), ignore any other shape. -/
def img (s expr mod : String) (data : List (String × Value)) :
    Except String HandlerOut :=
  let t := pyReplace s (expr ++ mod) ""
  let picture := compile_expr expr data
  if pyTruthy picture then
    match picture with
    | .str path => .ok ⟨t, [(.str path, .noneV, .noneV)], []⟩
    | .tuple [p, w, h] => .ok ⟨t, [(p, w, h)], []⟩
    | .tuple _ => .error "ValueError: tuple unpacking expected 3 values"
    | _ => .ok ⟨t, [], []⟩
  else
    .ok ⟨t, [], []⟩

/-- Embedding of the `tbl` handler (src/dompx.py lines 148-178): erase the
token text, then — if the compiled value is truthy — evaluate the guard
`not isinstance(matrix, list) and not isinstance(matrix[0], list)` exactly
as written (including the `matrix[0]` evaluation on non-lists, which can
itself raise) and, unless the guard returns, build and splice the table. -/
def tbl (s expr mod : String) (data : List (String × Value)) :
    Except String HandlerOut :=
  let t := pyReplace s (expr ++ mod) ""
  let matrix := compile_expr expr data
  if pyTruthy matrix then
    match matrix with
    | .list l => buildTable (.list l) t
    | v =>
      match pySubscript0 v with
      | .error e => .error e
      | .ok v0 =>
        match v0 with
        | .list _ => buildTable v t
        | _ => .ok ⟨t, [], []⟩
  else
    .ok ⟨t, [], []⟩

/-- Invoke the object the dispatch resolved to, with the handler argument
list `(doc, run, expr, mod, data)`.  Every non-handler module binding raises
a `TypeError` when called this way: modules are not callable, the module's
own functions reject the five-argument call, and `functools.partial` rejects
the non-callable document instance passed as its first argument. -/
def applyHandler (h : Handler) (s expr mod : String)
    (data : List (String × Value)) : Except String HandlerOut :=
  match h with
  | .replaceH => replace s expr mod data
  | .imgH => img s expr mod data
  | .tblH => tbl s expr mod data
  | .other name =>
    .error ("TypeError: " ++ name ++ " is not usable as a token handler")

/-- The per-run loop body of `domp` (src/dompx.py lines 91-95): iterate over
the snapshot of matches taken from the run's original text, dispatching each
token's modifier and threading the run text and document effects. -/
def processToks (s : String) (toks : List (String × String))
    (data : List (String × Value)) : Except String HandlerOut :=
  match toks with
  | [] => .ok ⟨s, [], []⟩
  | (e, m) :: rest => do
    let o ← applyHandler (dispatchHandler m) s e m data
    let o2 ← processToks o.text rest data
    .ok ⟨o2.text, o.pics ++ o2.pics, o.tbls ++ o2.tbls⟩

/-- Process one run: take the `token.findall` snapshot of its text and
dispatch every match. -/
def processRun (s : String) (data : List (String × Value)) :
    Except String HandlerOut :=
  processToks s (findAllS s) data

/-- Process every run of a paragraph in order, collecting the new run texts
and the document effects. -/
def processParagraph (runs : List String) (data : List (String × Value)) :
    Except String (List String × List Pic × List TblIns) :=
  match runs with
  | [] => .ok ([], [], [])
  | r :: rest => do
    let o ← processRun r data
    let (rs, ps, ts) ← processParagraph rest data
    .ok (o.text :: rs, o.pics ++ ps, o.tbls ++ ts)

/-- The concatenated full text of a paragraph (`paragraph.text` is the
concatenation of its runs' texts). -/
def fullText (runs : List String) : String :=
  String.join runs

/-- Embedding of `domp` (src/dompx.py lines 73-95): if the paragraph's full
text has no token match (`token.search` fails, equivalently the findall list
is empty), return immediately without touching any run; otherwise process
every run. -/
def domp (runs : List String) (data : List (String × Value)) :
    Except String (List String × List Pic × List TblIns) :=
  if (findAllS (fullText runs)).isEmpty then .ok (runs, [], [])
  else processParagraph runs data

/-! ## Document model and paragraph walker

Paragraphs are identified abstractly by strings.  A table exposes its
columns, a column its cells (top to bottom), and a cell its own paragraphs
and its nested tables — exactly the capabilities `table_paragraphs`
consumes. -/

mutual

/-- A table: an ordered list of columns. -/
inductive Table : Type where
  | mk : List Column → Table

/-- A column: its cells, top to bottom. -/
inductive Column : Type where
  | mk : List Cell → Column

/-- A cell: its own paragraphs and the tables nested inside it. -/
inductive Cell : Type where
  | mk : List String → List Table → Cell

end

/-- The columns of a table. -/
def Table.cols : Table → List Column
  | .mk cs => cs

/-- The cells of a column. -/
def Column.cells : Column → List Cell
  | .mk cs => cs

/-- The paragraphs a cell owns directly. -/
def Cell.paras : Cell → List String
  | .mk ps _ => ps

/-- The tables nested inside a cell. -/
def Cell.tabs : Cell → List Table
  | .mk _ ts => ts

/-- A header or footer: its paragraphs and its tables. -/
structure HeaderFooter : Type where
  paragraphs : List String
  tables : List Table

/-- A single-section document: body paragraphs, body tables, and the first
section's header and footer. -/
structure Document : Type where
  paragraphs : List String
  tables : List Table
  header : HeaderFooter
  footer : HeaderFooter

mutual

/-- Embedding of `table_paragraphs` (src/dompx.py lines 50-70): for each
table, for each column, for each cell, yield the cell's paragraphs and then
recurse into the cell's nested tables. -/
def table_paragraphs : List Table → List String
  | [] => []
  | t :: ts => walkTable t ++ table_paragraphs ts

/-- Walk one table of the `table_paragraphs` traversal. -/
def walkTable : Table → List String
  | .mk cols => walkColumns cols

/-- Walk the columns of a table in order. -/
def walkColumns : List Column → List String
  | [] => []
  | c :: cs => walkColumn c ++ walkColumns cs

/-- Walk one column: its cells top to bottom. -/
def walkColumn : Column → List String
  | .mk cells => walkCells cells

/-- Walk the cells of a column in order. -/
def walkCells : List Cell → List String
  | [] => []
  | c :: cs => walkCell c ++ walkCells cs

/-- Walk one cell: its own paragraphs first, then its nested tables. -/
def walkCell : Cell → List String
  | .mk ps ts => ps ++ table_paragraphs ts

end

/-- Embedding of `paragraphs` (src/dompx.py lines 14-47): document-body
paragraphs, then body-table paragraphs, then header paragraphs, header-table
paragraphs, footer paragraphs and footer-table paragraphs. -/
def paragraphs (d : Document) : List String :=
  d.paragraphs ++ table_paragraphs d.tables ++
    d.header.paragraphs ++ table_paragraphs d.header.tables ++
    d.footer.paragraphs ++ table_paragraphs d.footer.tables

mutual

/-- Nesting depth of a list of tables (0 when no cell exists). -/
def tablesDepth : List Table → Nat
  | [] => 0
  | t :: ts => max (tableDepth t) (tablesDepth ts)

/-- Nesting depth of one table. -/
def tableDepth : Table → Nat
  | .mk cols => colsDepth cols

/-- Nesting depth of a list of columns. -/
def colsDepth : List Column → Nat
  | [] => 0
  | c :: cs => max (colDepth c) (colsDepth cs)

/-- Nesting depth of one column. -/
def colDepth : Column → Nat
  | .mk cells => cellsDepth cells

/-- Nesting depth of a list of cells. -/
def cellsDepth : List Cell → Nat
  | [] => 0
  | c :: cs => max (cellDepth c) (cellsDepth cs)

/-- Nesting depth of one cell: one more than its nested tables. -/
def cellDepth : Cell → Nat
  | .mk _ ts => 1 + tablesDepth ts

end

/-- Modelled from the spec (section 4.4): the table traversal in the spec's
own words — "for each table, for each column, for each cell in that column,
yield its paragraphs" and recursively descend into any table nested inside a
cell before moving to the next cell.  The extra `Nat` argument is a depth
budget making the recursion structural; any budget exceeding the document's
actual nesting depth yields the full traversal. -/
def specTablesWalk : Nat → List Table → List String
  | 0, _ => []
  | d + 1, ts =>
    ts.flatMap fun t =>
      t.cols.flatMap fun col =>
        col.cells.flatMap fun cell =>
          cell.paras ++ specTablesWalk d cell.tabs

/-- Modelled from the spec (section 4.4): the full walker order — body
paragraphs, body-table paragraphs, header paragraphs, header-table
paragraphs, footer paragraphs, footer-table paragraphs. -/
def specParagraphs (d : Document) (n : Nat) : List String :=
  d.paragraphs ++ specTablesWalk n d.tables ++
    d.header.paragraphs ++ specTablesWalk n d.header.tables ++
    d.footer.paragraphs ++ specTablesWalk n d.footer.tables

/-- Helper for the walker refinement: the cell stage, assuming the
induction hypothesis for the nested tables. -/
theorem specWalk_cells_eq (d : Nat)
    (IH : ∀ ts, tablesDepth ts < d → specTablesWalk d ts = table_paragraphs ts) :
    ∀ cells : List Cell, cellsDepth cells < d + 1 →
      (cells.flatMap fun cell => cell.paras ++ specTablesWalk d cell.tabs) =
        walkCells cells := by
  intro cells
  induction cells with
  | nil => intro _; simp [walkCells]
  | cons cell rest ihrest =>
    intro h
    rw [cellsDepth] at h
    rw [List.flatMap_cons, walkCells]
    rw [ihrest (lt_of_le_of_lt (le_max_right _ _) h)]
    have hcell : cellDepth cell < d + 1 := lt_of_le_of_lt (le_max_left _ _) h
    obtain ⟨ps, tabs⟩ := cell
    rw [cellDepth] at hcell
    rw [walkCell, Cell.paras, Cell.tabs]
    rw [IH tabs (by omega)]

/-- Helper for the walker refinement: the column stage. -/
theorem specWalk_cols_eq (d : Nat)
    (IH : ∀ ts, tablesDepth ts < d → specTablesWalk d ts = table_paragraphs ts) :
    ∀ cols : List Column, colsDepth cols < d + 1 →
      (cols.flatMap fun col =>
        col.cells.flatMap fun cell => cell.paras ++ specTablesWalk d cell.tabs) =
        walkColumns cols := by
  intro cols
  induction cols with
  | nil => intro _; simp [walkColumns]
  | cons col rest ihrest =>
    intro h
    rw [colsDepth] at h
    rw [List.flatMap_cons, walkColumns]
    rw [ihrest (lt_of_le_of_lt (le_max_right _ _) h)]
    have hcol : colDepth col < d + 1 := lt_of_le_of_lt (le_max_left _ _) h
    obtain ⟨cells⟩ := col
    rw [colDepth] at hcol
    rw [walkColumn, Column.cells]
    rw [specWalk_cells_eq d IH cells hcol]

/-- The source walker agrees with the spec's traversal at every sufficient
depth budget. -/
theorem specTablesWalk_eq_table_paragraphs :
    ∀ (d : Nat) (ts : List Table), tablesDepth ts < d →
      specTablesWalk d ts = table_paragraphs ts := by
  intro d
  induction d with
  | zero => intro ts h; omega
  | succ d IH =>
    intro ts
    induction ts with
    | nil => intro _; simp [specTablesWalk, table_paragraphs]
    | cons t rest ihrest =>
      intro h
      rw [tablesDepth] at h
      rw [specTablesWalk, List.flatMap_cons, table_paragraphs]
      rw [show (rest.flatMap fun t =>
            t.cols.flatMap fun col =>
              col.cells.flatMap fun cell =>
                cell.paras ++ specTablesWalk d cell.tabs) =
          specTablesWalk (d + 1) rest from (by rw [specTablesWalk])]
      rw [ihrest (lt_of_le_of_lt (le_max_right _ _) h)]
      have ht : tableDepth t < d + 1 := lt_of_le_of_lt (le_max_left _ _) h
      obtain ⟨cols⟩ := t
      rw [tableDepth] at ht
      rw [walkTable, Table.cols]
      rw [specWalk_cols_eq d IH cols ht]

/-! ## Lemmas about `pyReplace` -/

/-- The scanning loop is insensitive to the exact fuel as long as the fuel
covers the text length. -/
theorem replaceAllGo_fuel (f1 : Nat) :
    ∀ (f2 : Nat) (s pat rep : List Char), s.length ≤ f1 → s.length ≤ f2 →
      replaceAllGo f1 s pat rep = replaceAllGo f2 s pat rep := by
  induction f1 with
  | zero =>
    intro f2 s pat rep h1 _
    have : s = [] := List.eq_nil_of_length_eq_zero (Nat.le_zero.mp h1)
    subst this
    cases f2 <;> rfl
  | succ f1 ih =>
    intro f2 s pat rep h1 h2
    match s, f2 with
    | [], 0 => rfl
    | [], g + 1 => rfl
    | c :: cs, 0 => simp at h2
    | c :: cs, g + 1 =>
      rw [replaceAllGo, replaceAllGo]
      by_cases hc : pat ≠ [] ∧ pat.isPrefixOf (c :: cs)
      · rw [if_pos hc, if_pos hc]
        have hlen : ((c :: cs).drop pat.length).length ≤ cs.length := by
          have : 1 ≤ pat.length := by
            cases pat with
            | nil => exact absurd rfl hc.1
            | cons _ _ => simp
          simp [List.length_drop]
          omega
        rw [ih g _ pat rep (le_trans hlen (Nat.le_of_succ_le_succ h1))
          (le_trans hlen (Nat.le_of_succ_le_succ h2))]
      · rw [if_neg hc, if_neg hc]
        rw [ih g cs pat rep (Nat.le_of_succ_le_succ h1) (Nat.le_of_succ_le_succ h2)]

/-- Replacing a pattern by itself is the identity. -/
theorem replaceAllGo_self (fuel : Nat) :
    ∀ s pat : List Char, s.length ≤ fuel →
      replaceAllGo fuel s pat pat = s := by
  induction fuel with
  | zero => intro s pat _; rfl
  | succ fuel ih =>
    intro s pat h
    match s with
    | [] => rfl
    | c :: cs =>
      rw [replaceAllGo]
      by_cases hc : pat ≠ [] ∧ pat.isPrefixOf (c :: cs)
      · rw [if_pos hc]
        obtain ⟨t, ht⟩ := List.isPrefixOf_iff_prefix.mp hc.2
        have hp1 : 1 ≤ pat.length := by
          cases pat with
          | nil => exact absurd rfl hc.1
          | cons _ _ => simp
        have hdrop : (c :: cs).drop pat.length = t := by
          rw [← ht, List.drop_left]
        have hlen2 : cs.length + 1 = pat.length + t.length := by
          have h2 := congrArg List.length ht
          simpa using h2.symm
        have hcs : cs.length + 1 ≤ fuel + 1 := by simpa using h
        rw [hdrop, ih t pat (by omega), ht]
      · rw [if_neg hc]
        rw [ih cs pat (Nat.le_of_succ_le_succ h)]

/-- A scan starting exactly at an occurrence of the (nonempty) pattern
replaces it and resumes after it. -/
theorem replaceAllGo_head (fuel : Nat) (pat t rep : List Char)
    (hne : pat ≠ []) :
    replaceAllGo (fuel + 1) (pat ++ t) pat rep =
      rep ++ replaceAllGo fuel ((pat ++ t).drop pat.length) pat rep := by
  match pat with
  | p :: ps =>
    show replaceAllGo (fuel + 1) (p :: (ps ++ t)) (p :: ps) rep = _
    rw [replaceAllGo]
    have hc : (p :: ps) ≠ [] ∧ (p :: ps).isPrefixOf (p :: (ps ++ t)) := by
      refine ⟨by simp, List.isPrefixOf_iff_prefix.mpr ⟨t, by simp⟩⟩
    rw [if_pos hc]
    rfl

/-- The character list `l` repeated `n` times. -/
def repeatL (l : List Char) : Nat → List Char
  | 0 => []
  | n + 1 => l ++ repeatL l n

/-- Character-level contents of `repeatS`. -/
theorem repeatS_data (s : String) : ∀ n, (repeatS s n).data = repeatL s.data n := by
  intro n
  induction n with
  | zero => rfl
  | succ n ih => rw [repeatS, repeatL, String.data_append, ih]

/-- One `str.replace` call rewrites every occurrence: on a text that is `n`
copies of the (nonempty) pattern, the result is `n` copies of the
replacement. -/
theorem replaceAllGo_repeat (n : Nat) :
    ∀ (fuel : Nat) (pat rep : List Char), pat ≠ [] →
      (repeatL pat n).length ≤ fuel →
      replaceAllGo fuel (repeatL pat n) pat rep = repeatL rep n := by
  induction n with
  | zero =>
    intro fuel pat rep _ _
    cases fuel <;> rfl
  | succ n ih =>
    intro fuel pat rep hne h
    rw [repeatL] at h ⊢
    have hp1 : 1 ≤ pat.length := by
      cases pat with
      | nil => exact absurd rfl hne
      | cons _ _ => simp
    rw [List.length_append] at h
    obtain ⟨fuel, rfl⟩ : ∃ f, fuel = f + 1 := ⟨fuel - 1, by omega⟩
    rw [replaceAllGo_head fuel pat _ rep hne]
    rw [List.drop_left]
    rw [ih fuel pat rep hne (by omega)]
    rw [repeatL]

/-! ## Lemmas about the `tbl` population loops -/

/-- Writing into the cell right after `pre` in a freshly-created row. -/
theorem set_append_cons {α : Type} (pre : List α) (x y : α) (t : List α) :
    (pre ++ x :: t).set pre.length y = pre ++ y :: t := by
  induction pre with
  | nil => rfl
  | cons p pre ih => simp [List.set, ih]

/-- Reading the cell right after `pre`. -/
theorem get?_append_length {α : Type} (pre : List α) (x : α) (t : List α) :
    (pre ++ x :: t).get? pre.length = some x := by
  induction pre with
  | nil => rfl
  | cons p pre ih => simpa using ih

/-- `fillRow` writes the string forms of the incoming values into the empty
tail of the designated row, preserving everything else. -/
theorem fillRow_fills (vs : List Value) :
    ∀ (done : List (List String)) (filled : List String)
      (tail : List (List String)),
      fillRow (done ++ (filled ++ List.replicate vs.length "") :: tail)
          done.length filled.length vs =
        .ok (done ++ (filled ++ vs.map pyStr) :: tail) := by
  induction vs with
  | nil => intro done filled tail; simp [fillRow]
  | cons v vs ih =>
    intro done filled tail
    rw [List.length_cons, List.replicate_succ]
    rw [fillRow]
    have hset : setCell
        (done ++ (filled ++ "" :: List.replicate vs.length "") :: tail)
        done.length filled.length (pyStr v) =
        some (done ++ (filled ++ pyStr v :: List.replicate vs.length "") :: tail) := by
      rw [setCell]
      simp only [get?_append_length]
      rw [if_pos (by simp)]
      rw [set_append_cons, set_append_cons]
    rw [hset]
    show fillRow (done ++ (filled ++ pyStr v :: List.replicate vs.length "") :: tail)
        done.length (filled.length + 1) vs = _
    have hassoc : filled ++ pyStr v :: List.replicate vs.length "" =
        (filled ++ [pyStr v]) ++ List.replicate vs.length "" := by
      simp
    have hlen : filled.length + 1 = (filled ++ [pyStr v]).length := by simp
    rw [hassoc, hlen]
    rw [ih done (filled ++ [pyStr v]) tail]
    simp

/-- `fillRows` turns the fresh `rows × cols` grid into the row-major string
image of a rectangular matrix. -/
theorem fillRows_fills (c : Nat) (rows : List Value) :
    ∀ done : List (List String),
      (∀ row ∈ rows, ∃ cs, row = Value.list cs ∧ cs.length = c) →
      fillRows (done ++ List.replicate rows.length (List.replicate c ""))
          done.length rows =
        .ok (done ++ rows.map fun row =>
          match row with
          | Value.list cs => cs.map pyStr
          | v => [pyStr v]) := by
  induction rows with
  | nil => intro done _; simp [fillRows]
  | cons row rest ih =>
    intro done hrect
    obtain ⟨cs, rfl, hlen⟩ := hrect row (List.mem_cons_self _ _)
    rw [List.length_cons, List.replicate_succ]
    rw [fillRows]
    show (Except.bind (fillRow (done ++ (List.replicate c "") ::
        List.replicate rest.length (List.replicate c "")) done.length 0 cs)
      fun g2 => fillRows g2 (done.length + 1) rest) = _
    have hfill := fillRow_fills cs done []
      (List.replicate rest.length (List.replicate c ""))
    rw [List.nil_append, List.nil_append, List.length_nil, hlen] at hfill
    rw [hfill]
    show fillRows (done ++ (cs.map pyStr) ::
        List.replicate rest.length (List.replicate c ""))
      (done.length + 1) rest = _
    have hsplit : done ++ (cs.map pyStr) ::
        List.replicate rest.length (List.replicate c "") =
        (done ++ [cs.map pyStr]) ++ List.replicate rest.length (List.replicate c "") := by
      simp
    have hlen1 : done.length + 1 = (done ++ [cs.map pyStr]).length := by simp
    rw [hsplit, hlen1]
    rw [ih (done ++ [cs.map pyStr])
      (fun r hr => hrect r (List.mem_cons_of_mem _ hr))]
    simp

/-! ## Claims -/

/-- C1, counterexample.  The claim says every modifier other than `!img` and
`!tbl` is processed exactly like the `replace` handler.  For the modifier
`!io` the lookup `globals().get('io', replace)` finds the imported `io`
module instead: invoking it raises a `TypeError`, while the `replace`
handler would have rewritten the token to the value's string form. -/
theorem c1_unknown_modifier_not_replace :
    applyHandler (dispatchHandler "!io") "@x!io" "@x" "!io" [("x", Value.int 1)] =
      .error "TypeError: io is not usable as a token handler" ∧
    applyHandler Handler.replaceH "@x!io" "@x" "!io" [("x", Value.int 1)] =
      .ok ⟨"1", [], []⟩ :=
  ⟨rfl, rfl⟩

/-- C1, amended.  A token whose modifier is absent or names nothing bound in
the module's global namespace is processed with exactly the effect of the
default `replace` handler; modifiers that collide with module-level bindings
(such as `io`, `re`, `partial`, `paragraphs`, `domp`, `compile`) are
dispatched to those objects instead. -/
theorem c1_unbound_modifier_dispatches_replace :
    ∀ (s expr mod : String) (data : List (String × Value)),
      modName mod ∉ moduleGlobalNames →
      applyHandler (dispatchHandler mod) s expr mod data = replace s expr mod data := by
  intro s expr mod data h
  have h1 : modName mod ≠ "replace" := by intro e; exact h (by rw [e]; decide)
  have h2 : modName mod ≠ "img" := by intro e; exact h (by rw [e]; decide)
  have h3 : modName mod ≠ "tbl" := by intro e; exact h (by rw [e]; decide)
  simp only [dispatchHandler]
  rw [if_neg h1, if_neg h2, if_neg h3, if_neg h]
  rfl

/-- C1, witness for the amended theorem at the unknown modifier `!foo`. -/
theorem c1_unbound_modifier_dispatches_replace_witness :
    applyHandler (dispatchHandler "!foo") "@x!foo" "@x" "!foo"
        [("x", Value.int 7)] =
      replace "@x!foo" "@x" "!foo" [("x", Value.int 7)] :=
  c1_unbound_modifier_dispatches_replace "@x!foo" "@x" "!foo"
    [("x", Value.int 7)] (by decide)

/-- C2.  The claim says an `img` token whose name is absent from the data
erases the token and mutates nothing further.  In the code, `compile_expr`
returns the token expression *string* as its unresolved sentinel; that
string is truthy and passes the `isinstance(picture, str)` test, so `img`
calls `run.add_picture` with the sentinel `"@photo"` as the image path —
an attempted image embed (which then fails at the library level when the
path is opened), not a silent skip. -/
theorem c2_img_unresolved_attempts_embed :
    img "@photo!img" "@photo" "!img" [] =
      .ok ⟨"", [(Value.str "@photo", Value.noneV, Value.noneV)], []⟩ :=
  rfl

/-- C3, counterexample.  The claim says only names bound in the data mapping
are visible to the evaluated expression.  But `eval(body, {}, data)` has the
builtins namespace injected into its empty globals dict, so the name `len`
resolves even under an empty data mapping. -/
theorem c3_builtin_visible_with_empty_mapping :
    evalName "len" [] = some (Value.builtin "len") ∧
      List.lookup "len" ([] : List (String × Value)) = none :=
  ⟨rfl, rfl⟩

/-- C3, amended.  A name visible to the evaluated expression comes either
from the data mapping or from the host language's builtin namespace; no
other ambient state (module globals, caller locals) is reachable. -/
theorem c3_names_from_mapping_or_builtins :
    ∀ (name : String) (data : List (String × Value)) (v : Value),
      evalName name data = some v →
      data.lookup name = some v ∨
        (data.lookup name = none ∧ name ∈ builtinNames ∧ v = .builtin name) := by
  intro name data v h
  cases hl : List.lookup name data with
  | some w =>
    left
    simp only [evalName, hl] at h
    exact congrArg some (Option.some.inj h)
  | none =>
    right
    simp only [evalName, hl] at h
    by_cases hb : name ∈ builtinNames
    · rw [if_pos hb] at h
      exact ⟨rfl, hb, (Option.some.inj h).symm⟩
    · rw [if_neg hb] at h
      exact absurd h (by simp)

/-- C3, witness for the amended theorem at a name bound in the mapping. -/
theorem c3_names_from_mapping_or_builtins_witness :
    List.lookup "x" [("x", Value.int 1)] = some (Value.int 1) ∨
      (List.lookup "x" [("x", Value.int 1)] = none ∧ "x" ∈ builtinNames ∧
        Value.int 1 = Value.builtin "x") :=
  c3_names_from_mapping_or_builtins "x" [("x", Value.int 1)] (Value.int 1) rfl

/-- C4.  The claim (and the handler's own comment, "supporting strict
structured matrix like data, e.g. list of lists") wants non-matrix values
silently ignored, but the guard
`not isinstance(matrix, list) and not isinstance(matrix[0], list)` only
returns when *both* conjuncts hold.  A plain list of non-lists such as
`[1, 2]` slips through and the code then crashes computing
`len(matrix[0])` on an `int` — a fatal `TypeError`, not a silent no-op. -/
theorem c4_tbl_nonmatrix_list_raises :
    tbl "@grid!tbl" "@grid" "!tbl" [("grid", Value.list [Value.int 1, Value.int 2])] =
      .error "TypeError: object has no len()" :=
  rfl

/-- C5, counterexample.  The claim says any truthy non-path, non-triple
value — "for example a tuple of a different arity" — is ignored without
error.  A 2-tuple passes the `isinstance(picture, tuple)` test and the
three-way unpacking `path, width, height = picture` raises a
`ValueError`. -/
theorem c5_pair_tuple_raises :
    img "@pic!img" "@pic" "!img" [("pic", Value.tuple [Value.str "a.png", Value.int 10])] =
      .error "ValueError: tuple unpacking expected 3 values" :=
  rfl

/-- C5, amended.  A truthy value that is neither a string nor a tuple (a
number, a list, ...) makes `img` erase the token, insert nothing and raise
nothing; tuples, however, are unpacked, and any arity other than 3 raises a
fatal `ValueError`. -/
theorem c5_img_ignores_nonstring_nontuple :
    ∀ (s expr mod : String) (data : List (String × Value)),
      pyTruthy (compile_expr expr data) = true →
      (∀ t, compile_expr expr data ≠ .str t) →
      (∀ l, compile_expr expr data ≠ .tuple l) →
      img s expr mod data = .ok ⟨pyReplace s (expr ++ mod) "", [], []⟩ := by
  intro s expr mod data ht hs htup
  cases hv : compile_expr expr data with
  | str t => exact absurd hv (hs t)
  | tuple l => exact absurd hv (htup l)
  | noneV => rw [hv] at ht; simp [pyTruthy] at ht
  | int n => rw [hv] at ht; simp only [img, hv, ht, if_true]
  | list l => rw [hv] at ht; simp only [img, hv, ht, if_true]
  | builtin b => rw [hv] at ht; simp only [img, hv, ht, if_true]

/-- C5, witness for the amended theorem at the truthy integer 5. -/
theorem c5_img_ignores_nonstring_nontuple_witness :
    img "@pic!img" "@pic" "!img" [("pic", Value.int 5)] =
      .ok ⟨pyReplace "@pic!img" ("@pic" ++ "!img") "", [], []⟩ :=
  c5_img_ignores_nonstring_nontuple "@pic!img" "@pic" "!img"
    [("pic", Value.int 5)] rfl
    (fun _ h => Value.noConfusion
      ((show compile_expr "@pic" [("pic", Value.int 5)] = Value.int 5 from rfl) ▸ h))
    (fun _ h => Value.noConfusion
      ((show compile_expr "@pic" [("pic", Value.int 5)] = Value.int 5 from rfl) ▸ h))

/-- C6, counterexample.  The claim says an unresolved token handled by
`replace` leaves the run text unchanged with expression *plus modifier*
still visible.  The unresolved sentinel is the expression alone, so for an
unknown-modifier token `@missing!foo` the call replaces `@missing!foo` by
`@missing`: the run text changes and the modifier is stripped. -/
theorem c6_unresolved_strips_modifier :
    replace "@missing!foo" "@missing" "!foo" [] = .ok ⟨"@missing", [], []⟩ ∧
      "@missing" ≠ "@missing!foo" :=
  ⟨rfl, by decide⟩

/-- C6, amended.  For a token handled by `replace`: a resolved value's
string form is substituted for every occurrence of expression+modifier; an
unresolved name substitutes the bare expression for expression+modifier,
which is a true no-op (original token left verbatim) exactly when the
modifier is empty. -/
theorem c6_replace_resolution_behaviour :
    ∀ (s expr mod : String) (data : List (String × Value)),
      (∀ v, evalName (exprBody expr) data = some v →
        replace s expr mod data = .ok ⟨pyReplace s (expr ++ mod) (pyStr v), [], []⟩) ∧
      (evalName (exprBody expr) data = none →
        replace s expr mod data = .ok ⟨pyReplace s (expr ++ mod) expr, [], []⟩) ∧
      (evalName (exprBody expr) data = none → mod = "" →
        replace s expr mod data = .ok ⟨s, [], []⟩) := by
  intro s expr mod data
  refine ⟨fun v hv => ?_, fun hn => ?_, fun hn hm => ?_⟩
  · simp only [replace, compile_expr, hv]
  · simp only [replace, compile_expr, hn, pyStr]
  · subst hm
    simp only [replace, compile_expr, hn, pyStr]
    have hid : pyReplace s (expr ++ "") expr = s := by
      rw [String.append_empty]
      apply String.ext
      exact replaceAllGo_self s.data.length s.data expr.data (le_refl _)
    rw [hid]

/-- C6, witness for the amended theorem: the empty-modifier no-op branch at
`@missing` under an empty mapping. -/
theorem c6_replace_resolution_behaviour_witness :
    replace "@missing" "@missing" "" [] = .ok ⟨"@missing", [], []⟩ :=
  (c6_replace_resolution_behaviour "@missing" "@missing" "" []).2.2 rfl rfl

/-- C8.  A paragraph whose concatenated full text has no token match is
skipped whole: `domp` returns before inspecting any run, so every run text
is unchanged and no document effect is produced. -/
theorem c8_paragraph_without_token_untouched :
    ∀ (runs : List String) (data : List (String × Value)),
      findAllS (fullText runs) = [] →
      domp runs data = .ok (runs, [], []) := by
  intro runs data h
  unfold domp
  rw [h]
  rfl

/-- C8, witness at a two-run paragraph with no token. -/
theorem c8_paragraph_without_token_untouched_witness :
    domp ["hello ", "world"] [("name", Value.str "Ann")] =
      .ok (["hello ", "world"], [], []) :=
  c8_paragraph_without_token_untouched ["hello ", "world"]
    [("name", Value.str "Ann")] rfl

/-- C10, counterexample.  The claim says that after the handler invocation
for the first snapshot match, later invocations operate on text from which
the token is already gone.  For an unresolved token with empty modifier the
substitution is a no-op, so after the first invocation both occurrences of
`@m` are still present (count 2): the second snapshot invocation does not
see token-free text. -/
theorem c10_unresolved_token_persists :
    replace "@m @m" "@m" "" [] = .ok ⟨"@m @m", [], []⟩ ∧
      countOccS "@m @m" "@m" = 2 :=
  ⟨rfl, rfl⟩

/-- C10, amended.  A single handler invocation performs a global
substitution over the run: on a run text consisting of `n` copies of the
token, one `replace` invocation rewrites all `n` occurrences (not only the
first); later snapshot invocations therefore see the globally rewritten
text, though the token text itself can survive when the substitution is the
unresolved no-op. -/
theorem c10_single_call_rewrites_all_occurrences :
    ∀ (expr mod : String) (data : List (String × Value)) (n : Nat),
      expr ≠ "" →
      replace (repeatS (expr ++ mod) n) expr mod data =
        .ok ⟨repeatS (pyStr (compile_expr expr data)) n, [], []⟩ := by
  intro expr mod data n hne
  have hd : (expr ++ mod).data ≠ [] := by
    rw [String.data_append]
    intro e
    have he : expr.data = [] := by
      cases hx : expr.data with
      | nil => rfl
      | cons a l => rw [hx] at e; simp at e
    exact hne (String.ext he)
  simp only [replace]
  have hrep : pyReplace (repeatS (expr ++ mod) n) (expr ++ mod)
      (pyStr (compile_expr expr data)) =
      repeatS (pyStr (compile_expr expr data)) n := by
    apply String.ext
    show replaceAllGo (repeatS (expr ++ mod) n).data.length
        (repeatS (expr ++ mod) n).data (expr ++ mod).data
        (pyStr (compile_expr expr data)).data = _
    rw [repeatS_data, repeatS_data]
    exact replaceAllGo_repeat n _ _ _ hd (le_refl _)
  rw [hrep]

/-- C10, witness for the amended theorem: both copies of `@m` become `7` in
one invocation. -/
theorem c10_single_call_rewrites_all_occurrences_witness :
    replace (repeatS ("@m" ++ "") 2) "@m" "" [("m", Value.int 7)] =
      .ok ⟨repeatS (pyStr (compile_expr "@m" [("m", Value.int 7)])) 2, [], []⟩ :=
  c10_single_call_rewrites_all_occurrences "@m" "" [("m", Value.int 7)] 2 (by decide)

/-- Helper for C9: `buildTable` on a non-empty rectangular matrix produces
the row-major string grid with the `Table Grid` style. -/
theorem buildTable_matrix (t : String) (c : Nat) :
    ∀ rows : List Value, rows ≠ [] →
      (∀ row ∈ rows, ∃ cs, row = Value.list cs ∧ cs.length = c) →
      buildTable (Value.list rows) t =
        .ok ⟨t, [], [⟨rows.length, c, "Table Grid",
          rows.map fun row => match row with
            | Value.list cs => cs.map pyStr
            | v => [pyStr v]⟩]⟩ := by
  intro rows hne hrect
  cases rows with
  | nil => exact absurd rfl hne
  | cons r0 rest =>
    obtain ⟨c0, rfl, hc0⟩ := hrect _ (List.mem_cons_self _ _)
    subst hc0
    have key := fillRows_fills c0.length (Value.list c0 :: rest) [] hrect
    simp only [List.nil_append, List.length_nil] at key
    have step1 : buildTable (Value.list (Value.list c0 :: rest)) t =
        Except.bind (fillRows (List.replicate (Value.list c0 :: rest).length
            (List.replicate c0.length "")) 0 (Value.list c0 :: rest))
          (fun grid => Except.ok ⟨t, [],
            [⟨(Value.list c0 :: rest).length, c0.length, "Table Grid", grid⟩]⟩) := rfl
    rw [step1, key]
    rfl

/-- C9.  A `tbl` token whose value is a non-empty rectangular matrix (list
of lists, all rows of the first row's length) erases the token from the run
and splices, at the run's position, a new table with `len(matrix)` rows and
`len(matrix[0])` columns, the default `Table Grid` style, and the string
form of each matrix entry in row-major order. -/
theorem c9_tbl_matrix_splices_table :
    ∀ (s expr mod : String) (data : List (String × Value))
      (rows : List Value) (c : Nat),
      compile_expr expr data = Value.list rows →
      rows ≠ [] →
      (∀ row ∈ rows, ∃ cs, row = Value.list cs ∧ cs.length = c) →
      tbl s expr mod data =
        .ok ⟨pyReplace s (expr ++ mod) "", [], [⟨rows.length, c, "Table Grid",
          rows.map fun row => match row with
            | Value.list cs => cs.map pyStr
            | v => [pyStr v]⟩]⟩ := by
  intro s expr mod data rows c hv hne hrect
  have htr : pyTruthy (Value.list rows) = true := by
    cases rows with
    | nil => exact absurd rfl hne
    | cons a l => simp [pyTruthy]
  simp only [tbl, hv, htr, if_true]
  exact buildTable_matrix (pyReplace s (expr ++ mod) "") c rows hne hrect

/-- C9, witness: the spec's own example `@grid!tbl` with
`grid = [[1,2],[3,4]]` yields an erased run and a spliced 2-by-2
`Table Grid` table with cells "1","2","3","4" in row-major order. -/
theorem c9_tbl_matrix_splices_table_witness :
    tbl "@grid!tbl" "@grid" "!tbl"
        [("grid", Value.list [Value.list [Value.int 1, Value.int 2],
          Value.list [Value.int 3, Value.int 4]])] =
      .ok ⟨"", [], [⟨2, 2, "Table Grid", [["1", "2"], ["3", "4"]]⟩]⟩ :=
  c9_tbl_matrix_splices_table "@grid!tbl" "@grid" "!tbl"
    [("grid", Value.list [Value.list [Value.int 1, Value.int 2],
      Value.list [Value.int 3, Value.int 4]])]
    [Value.list [Value.int 1, Value.int 2], Value.list [Value.int 3, Value.int 4]]
    2 rfl (List.cons_ne_nil _ _)
    (by
      intro row hr
      rcases List.mem_cons.mp hr with h | h
      · exact ⟨[Value.int 1, Value.int 2], h, rfl⟩
      · rcases List.mem_cons.mp h with h2 | h2
        · exact ⟨[Value.int 3, Value.int 4], h2, rfl⟩
        · exact absurd h2 (List.not_mem_nil _))

/-- C7.  The paragraph walker yields exactly the paragraphs of the document
in the spec's fixed order — body, body tables (column-major, per table, per
column, per cell, a cell's own paragraphs before its nested tables), header,
header tables, footer, footer tables: it agrees with the spec-side traversal
`specParagraphs` under any depth budget exceeding the document's table
nesting depth.  Termination for every finite document tree is inherent in
`paragraphs` being a total function of the document structure. -/
theorem c7_walker_matches_spec_order :
    ∀ (d : Document) (n : Nat),
      tablesDepth d.tables < n →
      tablesDepth d.header.tables < n →
      tablesDepth d.footer.tables < n →
      paragraphs d = specParagraphs d n := by
  intro d n h1 h2 h3
  unfold paragraphs specParagraphs
  rw [specTablesWalk_eq_table_paragraphs n _ h1,
    specTablesWalk_eq_table_paragraphs n _ h2,
    specTablesWalk_eq_table_paragraphs n _ h3]

/-- C7, witness: a document whose single body table has two columns, the
first column two cells, and a table nested inside the first cell. -/
theorem c7_walker_matches_spec_order_witness :
    paragraphs ⟨["body"],
        [Table.mk [Column.mk [Cell.mk ["c1"] [Table.mk [Column.mk [Cell.mk ["n1"] []]]],
          Cell.mk ["c2"] []], Column.mk [Cell.mk ["c3"] []]]],
        ⟨["h1"], []⟩, ⟨["f1"], []⟩⟩ =
      specParagraphs ⟨["body"],
        [Table.mk [Column.mk [Cell.mk ["c1"] [Table.mk [Column.mk [Cell.mk ["n1"] []]]],
          Cell.mk ["c2"] []], Column.mk [Cell.mk ["c3"] []]]],
        ⟨["h1"], []⟩, ⟨["f1"], []⟩⟩ 3 :=
  c7_walker_matches_spec_order _ 3 (by decide) (by decide) (by decide)

end Dompx
